import Mathlib

/-!
# Verification of the Pyro introduction notebook

Shallow embedding of `notebooks/1. An-introduction-to-models-in-Pyro.py`.

The stochastic functions of the notebook (`weather`, `ice_cream_sales`,
`geometric`, `normal_product`, `make_normal_normal`) are embedded as pure
Lean functions over an explicit random source: a stream of rational draws
`Nat → ℚ` together with a position counter.  Each `pyro.sample` call
consumes one stream value, interprets it through the distribution
(inverse-CDF style for `Bernoulli`, reparameterised `loc + scale * z` for
`Normal`), and records the `(name, value)` pair in the trace.  Errors from
the external library (parameter validation) and from Python dictionary
lookup (`KeyError`) are made explicit with `Except`.  Unbounded stochastic
recursion (`geometric`) is embedded with a fuel parameter; running out of
fuel represents a run that recurses past the given depth bound.
-/

namespace PyroModel

/-- Errors surfaced to the caller: invalid distribution parameters from the
external library, and a missing key in a Python dictionary lookup. -/
inductive RunError where
  | invalidParameter
  | keyError
deriving DecidableEq, Repr

/-- Distribution specifications appearing in the notebook: a parametric
family plus its numeric parameters. -/
inductive Dist where
  | bernoulli (p : ℚ)
  | normal (loc scale : ℚ)
deriving DecidableEq, Repr

/-- Modelled from the spec: the external library draws one sample from a
fully parameterised distribution using one value of the random source.
A `Bernoulli p` draw turns a uniform value `u ∈ [0,1)` into `1` when
`u < p` and `0` otherwise; a `Normal loc scale` draw is the reparameterised
`loc + scale * z` for a standard draw `z`. -/
def Dist.sample : Dist → ℚ → ℚ
  | .bernoulli p, u => if u < p then 1 else 0
  | .normal loc scale, z => loc + scale * z

/-- Modelled from the spec: constructing a `Bernoulli` distribution
validates that the probability lies in `[0, 1]`, failing with
`InvalidParameter` otherwise (the validation lives in the external
library, whose sources are not part of this repository). -/
def mkBernoulli (p : ℚ) : Except RunError Dist :=
  if 0 ≤ p ∧ p ≤ 1 then .ok (.bernoulli p) else .error .invalidParameter

/-- Modelled from the spec: constructing a `Normal` distribution validates
that the scale is positive, failing with `InvalidParameter` otherwise. -/
def mkNormal (loc scale : ℚ) : Except RunError Dist :=
  if 0 < scale then .ok (.normal loc scale) else .error .invalidParameter

/-- The state threaded through one execution: the process-wide random
stream, the position of the next unconsumed draw, and the trace of named
draws recorded so far. -/
structure SampleState where
  stream : Nat → ℚ
  pos : Nat
  trace : List (String × ℚ)

/-- Modelled from the spec: the Named Sampler primitive `pyro.sample`.
It draws one value from the distribution using the next stream value,
records `(name, value)` in the trace, and returns the value. -/
def pyroSample (name : String) (d : Dist) (s : SampleState) : ℚ × SampleState :=
  let v := d.sample (s.stream s.pos)
  (v, ⟨s.stream, s.pos + 1, s.trace ++ [(name, v)]⟩)

/-- `pyro.sample` applied to a distribution whose construction may have
failed validation: the construction error propagates to the caller. -/
def pyroSampleChecked (name : String) (d : Except RunError Dist) (s : SampleState) :
    Except RunError (ℚ × SampleState) :=
  match d with
  | .error e => .error e
  | .ok d => .ok (pyroSample name d s)

/-- Python dictionary lookup on a literal dict, failing with `KeyError`
when the key is absent. -/
def dictLookup (d : List (String × ℚ)) (k : String) : Except RunError ℚ :=
  match d.find? (fun kv => kv.1 == k) with
  | some kv => .ok kv.2
  | none => .error .keyError

/-- The literal dict mapping `cloudy` to 55.0 and `sunny` to 75.0 in `weather`. -/
def mean_temp_dict : List (String × ℚ) := [("cloudy", 55), ("sunny", 75)]

/-- The literal dict mapping `cloudy` to 10.0 and `sunny` to 15.0 in `weather`. -/
def scale_temp_dict : List (String × ℚ) := [("cloudy", 10), ("sunny", 15)]

/-- The `weather` model of the notebook: a Bernoulli(0.3) draw named `cloudy`
decides between the strings `cloudy` and `sunny`, the temperature
parameters are looked up in two dicts, and a Normal draw named `temp`
produces the temperature. -/
def weather (s : SampleState) : Except RunError ((String × ℚ) × SampleState) := do
  let (c, s) ← pyroSampleChecked "cloudy" (mkBernoulli (3/10)) s
  let cloudy := if c = 1 then "cloudy" else "sunny"
  let mean_temp ← dictLookup mean_temp_dict cloudy
  let scale_temp ← dictLookup scale_temp_dict cloudy
  let (temp, s) ← pyroSampleChecked "temp" (mkNormal mean_temp scale_temp) s
  return ((cloudy, temp), s)

/-- The `ice_cream_sales` model of the notebook: calls `weather`, branches on its
result to pick the expected sales, and draws `ice_cream` from a Normal. -/
def ice_cream_sales (s : SampleState) : Except RunError (ℚ × SampleState) := do
  let ((cloudy, temp), s) ← weather s
  let expected_sales : ℚ := if cloudy = "sunny" ∧ temp > 80 then 200 else 50
  let (ice_cream, s) ← pyroSampleChecked "ice_cream" (mkNormal expected_sales 10) s
  return (ice_cream, s)

/-- Decimal digits of `n`, most significant first, prepended to `acc`;
embeds the decimal rendering performed by the Python format method.  The
first argument is structural fuel; any fuel `≥ n` yields all digits. -/
def natDecCore : Nat → Nat → List Char → List Char
  | 0, _, acc => acc
  | fuel + 1, n, acc =>
    if n = 0 then acc
    else natDecCore fuel (n / 10) (Nat.digitChar (n % 10) :: acc)

/-- Decimal rendering of a natural number, as produced by the format method. -/
def natDec (n : Nat) : String :=
  if n = 0 then "0" else String.mk (natDecCore n n [])

/-- The sample name generated at recursion depth `t` inside `geometric`:
the text `x_` followed by the decimal rendering of `t`. -/
def xName (t : Nat) : String := "x_" ++ natDec t

/-- Result of running the unboundedly recursive `geometric` with a fuel
bound: a returned count, a propagated error, or fuel exhaustion (the run
recursed past the bound without returning). -/
inductive GeomResult where
  | ok (n : Nat) (s : SampleState)
  | err (e : RunError)
  | outOfFuel

/-- The `geometric(p, t=None)` model of the notebook: draw `Bernoulli(p)`
under the name `xName t`; return `0` on a draw of `1`, otherwise return
`1 + geometric(p, t+1)`.  The final argument is the fuel bound on the
recursion depth. -/
def geometric (p : ℚ) (topt : Option Nat) (s : SampleState) : Nat → GeomResult
  | 0 => .outOfFuel
  | fuel + 1 =>
    let t := topt.getD 0
    match pyroSampleChecked (xName t) (mkBernoulli p) s with
    | .error e => .err e
    | .ok (x, s) =>
      if x = 1 then .ok 0 s
      else
        match geometric p (some (t + 1)) s fuel with
        | .ok n s => .ok (1 + n) s
        | r => r

/-- The `normal_product(loc, scale)` model of the notebook: two Normal draws named
`z1` and `z2`, returning their product. -/
def normal_product (loc scale : ℚ) (s : SampleState) : Except RunError (ℚ × SampleState) := do
  let (z1, s) ← pyroSampleChecked "z1" (mkNormal loc scale) s
  let (z2, s) ← pyroSampleChecked "z2" (mkNormal loc scale) s
  return (z1 * z2, s)

/-- The `make_normal_normal` model of the notebook: draws `mu_laten` from a standard
Normal and returns the closure `lambda scale: normal_product(mu_latent, scale)`. -/
def make_normal_normal (s : SampleState) :
    Except RunError ((ℚ → SampleState → Except RunError (ℚ × SampleState)) × SampleState) := do
  let (mu_latent, s) ← pyroSampleChecked "mu_laten" (mkNormal 0 1) s
  let fn := fun scale => normal_product mu_latent scale
  return (fn, s)

/-- Modelled from the spec: `pyro.set_rng_seed` deterministically seeds the
process-wide random source.  The concrete stream is an arbitrary but fixed
deterministic function of the seed with values in `[0, 1)`. -/
def seedStream (seed : Nat) (n : Nat) : ℚ :=
  (((seed * 31 + n * 17) % 997 : Nat) : ℚ) / 997

/-- Modelled from the spec: the state at the start of an execution after
`pyro.set_rng_seed(seed)`: seeded stream, position 0, empty trace. -/
def set_rng_seed (seed : Nat) : SampleState := ⟨seedStream seed, 0, []⟩

/-- A fresh top-level invocation starts with an empty trace while the
random stream continues from where the previous call left it. -/
def freshTrace (s : SampleState) : SampleState := ⟨s.stream, s.pos, []⟩

/-- The notebook loop that calls `weather()` n times: `n` successive
top-level invocations of `weather`, each starting a fresh trace; records
the return value of each call together with the trace it produced. -/
def weatherCalls : Nat → SampleState → Except RunError (List ((String × ℚ) × List (String × ℚ)) × SampleState)
  | 0, s => .ok ([], s)
  | n + 1, s => do
    let (r, s1) ← weather (freshTrace s)
    let (rs, s2) ← weatherCalls n s1
    return ((r, s1.trace) :: rs, s2)

/-- A concrete state used to instantiate theorems: the constant-zero
stream at position 0 with an empty trace. -/
def zeroState : SampleState := ⟨fun _ => 0, 0, []⟩

/-! ### Injectivity of the dynamically generated sample names -/

/-- Decode a list of decimal digit characters back to a number; a left
inverse of the rendering, used to prove that rendering is injective. -/
def decodeDec (cs : List Char) : Nat :=
  cs.foldl (fun a c => 10 * a + (c.toNat - 48)) 0

theorem digitChar_decode : ∀ r : Nat, r < 10 → (Nat.digitChar r).toNat - 48 = r := by
  decide

theorem decodeDec_snoc (l : List Char) (c : Char) :
    decodeDec (l ++ [c]) = 10 * decodeDec l + (c.toNat - 48) := by
  simp [decodeDec, List.foldl_append]

theorem natDecCore_acc (fuel : Nat) : ∀ n acc, n ≤ fuel →
    natDecCore fuel n acc = natDecCore fuel n [] ++ acc := by
  induction fuel with
  | zero =>
    intro n acc h
    simp [natDecCore]
  | succ fuel ih =>
    intro n acc h
    by_cases h0 : n = 0
    · simp [natDecCore, h0]
    · have hd : n / 10 ≤ fuel := by
        have := Nat.div_lt_self (Nat.pos_of_ne_zero h0) (by norm_num : 1 < 10)
        omega
      simp only [natDecCore, if_neg h0]
      rw [ih (n / 10) (Nat.digitChar (n % 10) :: acc) hd,
        ih (n / 10) [Nat.digitChar (n % 10)] hd]
      simp

theorem decodeDec_natDecCore (fuel : Nat) : ∀ n, n ≤ fuel →
    decodeDec (natDecCore fuel n []) = n := by
  induction fuel with
  | zero =>
    intro n h
    simp only [Nat.le_zero] at h
    simp [h, natDecCore, decodeDec]
  | succ fuel ih =>
    intro n h
    by_cases h0 : n = 0
    · simp [natDecCore, h0, decodeDec]
    · have hd : n / 10 ≤ fuel := by
        have := Nat.div_lt_self (Nat.pos_of_ne_zero h0) (by norm_num : 1 < 10)
        omega
      simp only [natDecCore, if_neg h0]
      rw [natDecCore_acc fuel (n / 10) [Nat.digitChar (n % 10)] hd]
      rw [decodeDec_snoc, ih (n / 10) hd,
        digitChar_decode (n % 10) (Nat.mod_lt n (by norm_num))]
      omega

theorem decodeDec_natDec (n : Nat) : decodeDec (natDec n).data = n := by
  by_cases h0 : n = 0
  · simp [natDec, h0, decodeDec]
  · simp only [natDec, if_neg h0]
    exact decodeDec_natDecCore n n le_rfl

theorem natDec_injective : Function.Injective natDec := by
  intro a b h
  have h2 := congrArg (fun s => decodeDec (String.data s)) h
  simpa [decodeDec_natDec] using h2

theorem xName_injective : Function.Injective xName := by
  intro a b h
  apply natDec_injective
  have hd := congrArg String.data h
  simp only [xName] at hd
  rw [String.data_append, String.data_append] at hd
  have h3 : (natDec a).data = (natDec b).data := List.append_cancel_left hd
  cases hna : natDec a
  cases hnb : natDec b
  rw [hna, hnb] at h3
  simp only [] at h3
  exact congrArg String.mk h3

/-! ### Characterisation of one run of `weather` -/

/-- The value of the `cloudy` draw performed by `weather` on state `s`. -/
def cloudyDraw (s : SampleState) : ℚ :=
  Dist.sample (.bernoulli (3/10)) (s.stream s.pos)

/-- The value of the `temp` draw performed by `weather` on state `s`:
its parameters are a function of the `cloudy` draw. -/
def tempDraw (s : SampleState) : ℚ :=
  Dist.sample
    (.normal (if cloudyDraw s = 1 then 55 else 75)
             (if cloudyDraw s = 1 then 10 else 15))
    (s.stream (s.pos + 1))

theorem dictLookup_mean_cloudy : dictLookup mean_temp_dict "cloudy" = .ok 55 := by rfl

theorem dictLookup_mean_sunny : dictLookup mean_temp_dict "sunny" = .ok 75 := by rfl

theorem dictLookup_scale_cloudy : dictLookup scale_temp_dict "cloudy" = .ok 10 := by rfl

theorem dictLookup_scale_sunny : dictLookup scale_temp_dict "sunny" = .ok 15 := by rfl

/-- One run of `weather` always succeeds, with both draws and the final
state described explicitly. -/
theorem weather_eq (s : SampleState) :
    weather s =
      .ok ((if cloudyDraw s = 1 then "cloudy" else "sunny", tempDraw s),
           ⟨s.stream, s.pos + 1 + 1,
            s.trace ++ [("cloudy", cloudyDraw s), ("temp", tempDraw s)]⟩) := by
  by_cases hb : s.stream s.pos < 3/10 <;>
    norm_num [weather, pyroSampleChecked, pyroSample, mkBernoulli, mkNormal,
      dictLookup_mean_cloudy, dictLookup_mean_sunny, dictLookup_scale_cloudy,
      dictLookup_scale_sunny, cloudyDraw, tempDraw, Dist.sample, bind, Except.bind,
      pure, Except.pure, hb]

/-! ### Runs of `geometric` and the remaining properties -/

theorem geometric_none (p : ℚ) (s : SampleState) (fuel : Nat) :
    geometric p none s fuel = geometric p (some 0) s fuel := by
  cases fuel <;> rfl

theorem bernoulli_sample_eq_one (p u : ℚ) :
    Dist.sample (.bernoulli p) u = 1 ↔ u < p := by
  simp only [Dist.sample]
  split
  · simp_all
  · simp_all

theorem geometric_first_success (p : ℚ) (hp0 : 0 ≤ p) (hp1 : p ≤ 1) :
    ∀ (n fuel t : Nat) (s : SampleState), n < fuel →
    (∀ i, i < n → ¬ s.stream (s.pos + i) < p) →
    s.stream (s.pos + n) < p →
    ∃ s', geometric p (some t) s fuel = .ok n s' := by
  intro n
  induction n with
  | zero =>
    intro fuel t s hf hfail hit
    obtain ⟨fuel, rfl⟩ : ∃ f, fuel = f + 1 := ⟨fuel - 1, by omega⟩
    simp only [Nat.add_zero] at hit
    refine ⟨⟨s.stream, s.pos + 1, s.trace ++ [(xName t, 1)]⟩, ?_⟩
    simp [geometric, pyroSampleChecked, pyroSample, mkBernoulli, Dist.sample, hp0, hp1, hit]
  | succ n ih =>
    intro fuel t s hf hfail hit
    obtain ⟨fuel, rfl⟩ : ∃ f, fuel = f + 1 := ⟨fuel - 1, by omega⟩
    have h0 : ¬ s.stream (s.pos + 0) < p := hfail 0 (by omega)
    simp only [Nat.add_zero] at h0
    have hrec := ih fuel (t + 1) ⟨s.stream, s.pos + 1, s.trace ++ [(xName t, 0)]⟩
      (by omega)
      (by
        intro i hi
        have := hfail (i + 1) (by omega)
        simpa [Nat.add_assoc, Nat.add_comm 1 i] using this)
      (by
        have := hit
        simpa [Nat.add_assoc, Nat.add_comm 1 n] using this)
    obtain ⟨s', hs'⟩ := hrec
    refine ⟨s', ?_⟩
    simp only [geometric, pyroSampleChecked, pyroSample, mkBernoulli, Dist.sample,
      if_pos (And.intro hp0 hp1), if_neg h0, Option.getD_some]
    rw [if_neg (by norm_num : ¬ (0:ℚ) = 1)]
    rw [hs']
    simp [Nat.add_comm 1 n]


theorem geometric_ok_inv (p : ℚ) :
    ∀ (fuel t n : Nat) (s s' : SampleState),
    geometric p (some t) s fuel = .ok n s' →
    (∀ i, i < n → ¬ s.stream (s.pos + i) < p) ∧ s.stream (s.pos + n) < p := by
  intro fuel
  induction fuel with
  | zero =>
    intro t n s s' h
    exact absurd h (by simp [geometric])
  | succ fuel ih =>
    intro t n s s' h
    simp only [geometric, pyroSampleChecked, pyroSample, mkBernoulli, Dist.sample,
      Option.getD_some] at h
    by_cases hv : 0 ≤ p ∧ p ≤ 1
    · rw [if_pos hv] at h
      simp only [] at h
      by_cases hu : s.stream s.pos < p
      · rw [if_pos hu, if_pos rfl] at h
        obtain ⟨hn, hs⟩ := GeomResult.ok.inj h
        subst hn
        refine ⟨fun i hi => absurd hi (by omega), ?_⟩
        simpa using hu
      · rw [if_neg hu, if_neg (by norm_num : ¬ (0:ℚ) = 1)] at h
        cases hg : geometric p (some (t + 1)) ⟨s.stream, s.pos + 1,
            s.trace ++ [(xName t, 0)]⟩ fuel with
        | ok m s2 =>
          rw [hg] at h
          obtain ⟨hn, hs⟩ := GeomResult.ok.inj h
          subst hn
          obtain ⟨hfail, hit⟩ := ih (t + 1) m _ s2 hg
          constructor
          · intro i hi
            match i with
            | 0 => simpa using hu
            | j + 1 =>
              have := hfail j (by omega)
              simpa [Nat.add_assoc, Nat.add_comm 1 j] using this
          · have := hit
            simpa [Nat.add_assoc, Nat.add_comm 1 m] using this
        | err e => rw [hg] at h; exact absurd h (by simp)
        | outOfFuel => rw [hg] at h; exact absurd h (by simp)
    · rw [if_neg hv] at h
      exact absurd h (by simp)

theorem range_map_shift {α : Type} (f : Nat → α) (m : Nat) :
    f 0 :: (List.range (m + 1)).map (fun i => f (i + 1)) = (List.range (m + 1 + 1)).map f := by
  nth_rewrite 2 [List.range_succ_eq_map]
  simp only [List.map_cons, List.map_map]
  rfl

theorem geometric_ok_trace (p : ℚ) :
    ∀ (fuel t n : Nat) (s s' : SampleState),
    geometric p (some t) s fuel = .ok n s' →
    s'.stream = s.stream ∧ s'.pos = s.pos + (n + 1) ∧
    s'.trace = s.trace ++ (List.range (n + 1)).map
      (fun i => (xName (t + i), Dist.sample (.bernoulli p) (s.stream (s.pos + i)))) := by
  intro fuel
  induction fuel with
  | zero =>
    intro t n s s' h
    exact absurd h (by simp [geometric])
  | succ fuel ih =>
    intro t n s s' h
    simp only [geometric, pyroSampleChecked, pyroSample, mkBernoulli,
      Option.getD_some] at h
    by_cases hv : 0 ≤ p ∧ p ≤ 1
    · rw [if_pos hv] at h
      simp only [] at h
      by_cases hu : Dist.sample (.bernoulli p) (s.stream s.pos) = 1
      · rw [if_pos hu] at h
        obtain ⟨hn, hs⟩ := GeomResult.ok.inj h
        subst hn
        subst hs
        refine ⟨rfl, rfl, ?_⟩
        simp [List.range_succ, hu]
      · rw [if_neg hu] at h
        cases hg : geometric p (some (t + 1)) ⟨s.stream, s.pos + 1,
            s.trace ++ [(xName t, Dist.sample (.bernoulli p) (s.stream s.pos))]⟩ fuel with
        | ok m s2 =>
          rw [hg] at h
          obtain ⟨hn, hs⟩ := GeomResult.ok.inj h
          subst hn
          subst hs
          obtain ⟨h1, h2, h3⟩ := ih (t + 1) m _ s2 hg
          refine ⟨h1, by simp at h2 ⊢; omega, ?_⟩
          rw [h3]
          simp only []
          rw [List.append_assoc]
          congr 1
          have hfun : (fun i => (xName (t + 1 + i),
              Dist.sample (.bernoulli p) (s.stream (s.pos + 1 + i))))
              = (fun i => (xName (t + (i + 1)),
              Dist.sample (.bernoulli p) (s.stream (s.pos + (i + 1))))) := by
            funext i
            have e1 : t + 1 + i = t + (i + 1) := by omega
            have e2 : s.pos + 1 + i = s.pos + (i + 1) := by omega
            rw [e1, e2]
          rw [hfun]
          have hn1 : 1 + m + 1 = m + 1 + 1 := by omega
          rw [hn1]
          exact range_map_shift (fun i => (xName (t + i),
            Dist.sample (.bernoulli p) (s.stream (s.pos + i)))) m
        | err e => rw [hg] at h; exact absurd h (by simp)
        | outOfFuel => rw [hg] at h; exact absurd h (by simp)
    · rw [if_neg hv] at h
      exact absurd h (by simp)

def twoFailState : SampleState := ⟨fun i => if i < 2 then 1 else 0, 0, []⟩

def geomZeroFinal : SampleState := ⟨fun _ => 0, 1, [("x_0", 1)]⟩

/-- C1: for a well-formed probability `p` with `0 <= p <= 1`, `geometric p`
returns the number of failed Bernoulli trials before the first successful
one: it draws Bernoulli samples at successive recursion depths 0, 1, 2, ...,
and when the draws at depths below `n` all have value different from 1
while the draw at depth `n` has value 1, every run with fuel above `n`
returns `n`, and `n` is the only count a successful run can return. -/
theorem geometric_returns_first_success_depth (p : ℚ) (hp0 : 0 ≤ p) (hp1 : p ≤ 1)
    (n fuel : Nat) (s : SampleState) (hf : n < fuel)
    (hfail : ∀ i, i < n → Dist.sample (.bernoulli p) (s.stream (s.pos + i)) ≠ 1)
    (hit : Dist.sample (.bernoulli p) (s.stream (s.pos + n)) = 1) :
    (∃ s', geometric p none s fuel = .ok n s') ∧
    ∀ m s', geometric p none s fuel = .ok m s' → m = n := by
  have hfail' : ∀ i, i < n → ¬ s.stream (s.pos + i) < p := by
    intro i hi
    simpa [bernoulli_sample_eq_one] using hfail i hi
  have hit' : s.stream (s.pos + n) < p := (bernoulli_sample_eq_one _ _).mp hit
  constructor
  · rw [geometric_none]
    exact geometric_first_success p hp0 hp1 n fuel 0 s hf hfail' hit'
  · intro m s' hm
    rw [geometric_none] at hm
    obtain ⟨hfail2, hit2⟩ := geometric_ok_inv p fuel 0 m s s' hm
    by_contra hne
    rcases Nat.lt_or_ge m n with hlt | hge
    · exact hfail' m hlt hit2
    · exact hfail2 n (by omega) hit'

theorem geometric_returns_first_success_depth_witness :
    (∃ s', geometric (1/2) none twoFailState 4 = .ok 2 s') ∧
    ∀ m s', geometric (1/2) none twoFailState 4 = .ok m s' → m = 2 :=
  geometric_returns_first_success_depth (1/2) (by norm_num) (by norm_num) 2 4 twoFailState
    (by norm_num)
    (by intro i hi; interval_cases i <;> norm_num [Dist.sample, twoFailState])
    (by norm_num [Dist.sample, twoFailState])

/-- C2: `geometric` called with `p = 1` returns 0 on the first call, for
every run: any uniform draw below 1 makes the first Bernoulli(1) trial
yield 1, so one unit of fuel suffices, exactly one draw (named `x_0`) is
recorded, and no recursive call occurs. -/
theorem geometric_one_returns_zero (s : SampleState) (fuel : Nat)
    (h : s.stream s.pos < 1) :
    geometric 1 none s (fuel + 1) =
      .ok 0 ⟨s.stream, s.pos + 1, s.trace ++ [("x_0", 1)]⟩ := by
  rw [geometric_none]
  simp [geometric, pyroSampleChecked, pyroSample, mkBernoulli, Dist.sample, h,
    show xName 0 = "x_0" from rfl]

theorem geometric_one_returns_zero_witness :
    zeroState.stream zeroState.pos < 1 ∧
    geometric 1 none zeroState 1 =
      .ok 0 ⟨zeroState.stream, zeroState.pos + 1, zeroState.trace ++ [("x_0", 1)]⟩ :=
  ⟨by norm_num [zeroState], geometric_one_returns_zero zeroState 0 (by norm_num [zeroState])⟩

/-- C3: `geometric` called with `p = 0` never terminates within any fixed
bound: for every depth limit `D` and every random stream with nonnegative
draws (so every Bernoulli(0) draw yields 0), the run exhausts its fuel
instead of returning, whatever depth argument it was started from. -/
theorem geometric_zero_never_terminates (D : Nat) (topt : Option Nat) (s : SampleState)
    (h : ∀ n, 0 ≤ s.stream n) :
    geometric 0 topt s D = .outOfFuel := by
  induction D generalizing topt s with
  | zero => rfl
  | succ D ih =>
    have h0 : ¬ s.stream s.pos < 0 := not_lt.mpr (h s.pos)
    simp only [geometric, pyroSampleChecked, pyroSample, mkBernoulli, Dist.sample]
    rw [if_pos (by norm_num : (0:ℚ) ≤ 0 ∧ (0:ℚ) ≤ 1)]
    simp only []
    rw [if_neg h0, if_neg (by norm_num : ¬ (0:ℚ) = 1)]
    rw [ih (some ((topt.getD 0) + 1)) ⟨s.stream, s.pos + 1,
      s.trace ++ [(xName (topt.getD 0), 0)]⟩ h]

theorem geometric_zero_never_terminates_witness :
    (∀ n, (0:ℚ) ≤ zeroState.stream n) ∧ geometric 0 none zeroState 3 = .outOfFuel :=
  ⟨fun _ => by norm_num [zeroState],
   geometric_zero_never_terminates 3 none zeroState (fun _ => by norm_num [zeroState])⟩

/-- C4: within a single top-level invocation of `geometric`, every sampling
call uses a distinct name: the trace names of a successful run started from
an empty trace are exactly `xName 0 .. xName n` — the name at depth `t`
being the text `x_` followed by the decimal rendering of `t` — the list of
recorded names has no duplicate, and distinct depths always yield distinct
names. -/
theorem geometric_trace_names_distinct (p : ℚ) (s s' : SampleState) (fuel n : Nat)
    (h : geometric p none s fuel = .ok n s') (h0 : s.trace = []) :
    s'.trace.map Prod.fst = (List.range (n + 1)).map xName ∧
    (s'.trace.map Prod.fst).Nodup ∧
    ∀ t1 t2 : Nat, t1 ≠ t2 → xName t1 ≠ xName t2 := by
  rw [geometric_none] at h
  obtain ⟨-, -, h3⟩ := geometric_ok_trace p fuel 0 n s s' h
  have hmap : s'.trace.map Prod.fst = (List.range (n + 1)).map xName := by
    rw [h3, h0]
    simp [List.map_map, Function.comp]
  refine ⟨hmap, ?_, fun t1 t2 hne hEq => hne (xName_injective hEq)⟩
  rw [hmap]
  exact (List.nodup_range (n + 1)).map xName_injective

theorem geometric_trace_names_distinct_witness :
    geometric (1/2) none zeroState 1 = .ok 0 geomZeroFinal ∧
    (geomZeroFinal.trace.map Prod.fst = (List.range 1).map xName ∧
     (geomZeroFinal.trace.map Prod.fst).Nodup ∧
     ∀ t1 t2 : Nat, t1 ≠ t2 → xName t1 ≠ xName t2) := by
  have hrun : geometric (1/2) none zeroState 1 = .ok 0 geomZeroFinal := by
    norm_num [geometric, pyroSampleChecked, pyroSample, mkBernoulli, Dist.sample,
      zeroState, geomZeroFinal, show xName 0 = "x_0" from rfl]
  exact ⟨hrun, geometric_trace_names_distinct (1/2) zeroState geomZeroFinal 1 0 hrun rfl⟩

def weatherZeroFinal : SampleState := ⟨fun _ => 0, 2, [("cloudy", 1), ("temp", 55)]⟩

/-- C5: determinism under a fixed seed, as a two-run equality: for each
stochastic function in the file, two independent executions that each start
from the state produced by `set_rng_seed` with the same seed produce
identical results, recorded traces included.  The embedding is pure, so
the seeded random stream is the only source of variation between runs. -/
theorem fixed_seed_deterministic (seed fuel : Nat) (p : ℚ) :
    weather (set_rng_seed seed) = weather (set_rng_seed seed) ∧
    ice_cream_sales (set_rng_seed seed) = ice_cream_sales (set_rng_seed seed) ∧
    geometric p none (set_rng_seed seed) fuel = geometric p none (set_rng_seed seed) fuel ∧
    make_normal_normal (set_rng_seed seed) = make_normal_normal (set_rng_seed seed) :=
  ⟨rfl, rfl, rfl, rfl⟩

/-- C6: between two sampling calls the computation is deterministic in the
first drawn value: the string and the temperature returned by `weather` are
functions of the `cloudy` draw — the `temp` draw has mean 55 and scale 10
when the Bernoulli(0.3) draw equals 1, and mean 75 and scale 15 otherwise —
and the `ice_cream` draw of `ice_cream_sales` has mean 200 exactly when
`weather` returned `sunny` with temperature above 80, and mean 50 in every
other case. -/
theorem deterministic_between_samples (s : SampleState) (c : String) (T : ℚ)
    (s1 : SampleState) (hw : weather s = .ok ((c, T), s1)) :
    (c = (if cloudyDraw s = 1 then "cloudy" else "sunny") ∧
     T = Dist.sample (.normal (if cloudyDraw s = 1 then 55 else 75)
                              (if cloudyDraw s = 1 then 10 else 15)) (s.stream (s.pos + 1))) ∧
    ∃ s2, ice_cream_sales s =
      .ok (Dist.sample (.normal (if c = "sunny" ∧ T > 80 then 200 else 50) 10)
             (s1.stream s1.pos), s2) := by
  have h1 := weather_eq s
  rw [hw] at h1
  have h2 := Except.ok.inj h1
  have hc : c = (if cloudyDraw s = 1 then "cloudy" else "sunny") :=
    congrArg (fun x => x.1.1) h2
  have hT : T = tempDraw s := congrArg (fun x => x.1.2) h2
  refine ⟨⟨hc, by rw [hT, tempDraw]⟩, ?_⟩
  refine ⟨⟨s1.stream, s1.pos + 1, s1.trace ++
    [("ice_cream", Dist.sample (.normal (if c = "sunny" ∧ T > 80 then 200 else 50) 10)
      (s1.stream s1.pos))]⟩, ?_⟩
  simp only [ice_cream_sales, bind, Except.bind, hw]
  have h10 : (0:ℚ) < 10 := by norm_num
  simp [pyroSampleChecked, pyroSample, mkNormal, h10, pure, Except.pure]

theorem deterministic_between_samples_witness :
    ∃ s2, ice_cream_sales zeroState =
      .ok (Dist.sample (.normal (if "cloudy" = "sunny" ∧ (55:ℚ) > 80 then 200 else 50) 10)
             (weatherZeroFinal.stream weatherZeroFinal.pos), s2) :=
  (deterministic_between_samples zeroState "cloudy" 55 weatherZeroFinal
    (by rw [weather_eq]; norm_num [cloudyDraw, tempDraw, zeroState, weatherZeroFinal,
      Dist.sample])).2

/-- C7: constructing a distribution with parameters outside the valid
domain of the family fails with an `InvalidParameter` error surfaced
immediately to the caller: `geometric` with `p` outside `[0, 1]` fails at
its first Bernoulli construction rather than returning a value, and
`normal_product` with `scale <= 0` fails at its first Normal construction;
nothing in the file catches or recovers the error. -/
theorem invalid_parameter_raises (p loc scale : ℚ) (s s2 : SampleState) (fuel : Nat)
    (hp : p < 0 ∨ 1 < p) (hscale : scale ≤ 0) :
    geometric p none s (fuel + 1) = .err .invalidParameter ∧
    normal_product loc scale s2 = .error .invalidParameter := by
  constructor
  · have hv : ¬ (0 ≤ p ∧ p ≤ 1) := by
      rcases hp with h | h
      · exact fun hx => absurd hx.1 (not_le.mpr h)
      · exact fun hx => absurd hx.2 (not_le.mpr h)
    rw [geometric_none]
    simp [geometric, pyroSampleChecked, mkBernoulli, hv]
  · have hv : ¬ (0:ℚ) < scale := not_lt.mpr hscale
    simp [normal_product, pyroSampleChecked, mkNormal, hv, bind, Except.bind]

theorem invalid_parameter_raises_witness :
    ((2:ℚ) < 0 ∨ (1:ℚ) < 2) ∧ (0:ℚ) ≤ 0 ∧
    (geometric 2 none zeroState 1 = .err .invalidParameter ∧
     normal_product 0 0 zeroState = .error .invalidParameter) :=
  ⟨Or.inr (by norm_num), le_refl 0,
   invalid_parameter_raises 2 0 0 zeroState zeroState 0 (Or.inr (by norm_num)) (le_refl 0)⟩

theorem weather_fresh (s : SampleState) :
    weather (freshTrace s) =
      .ok ((if cloudyDraw (freshTrace s) = 1 then "cloudy" else "sunny",
            tempDraw (freshTrace s)),
           ⟨s.stream, s.pos + 1 + 1,
            [("cloudy", cloudyDraw (freshTrace s)), ("temp", tempDraw (freshTrace s))]⟩) := by
  rw [weather_eq (freshTrace s)]
  rfl

theorem weatherCalls_spec :
    ∀ (n : Nat) (s : SampleState), ∃ rs s',
    weatherCalls n s = .ok (rs, s') ∧ rs.length = n ∧
    (∀ r ∈ rs, r.2.map Prod.fst = ["cloudy", "temp"]) ∧
    s'.pos = s.pos + 2 * n := by
  intro n
  induction n with
  | zero => intro s; exact ⟨[], s, rfl, rfl, by simp, by omega⟩
  | succ n ih =>
    intro s
    obtain ⟨rs, s2, h1, h2, h3, h4⟩ := ih ⟨s.stream, s.pos + 1 + 1,
      [("cloudy", cloudyDraw (freshTrace s)), ("temp", tempDraw (freshTrace s))]⟩
    refine ⟨((if cloudyDraw (freshTrace s) = 1 then "cloudy" else "sunny",
        tempDraw (freshTrace s)),
        [("cloudy", cloudyDraw (freshTrace s)), ("temp", tempDraw (freshTrace s))]) :: rs,
      s2, ?_, ?_, ?_, ?_⟩
    · simp only [weatherCalls, bind, Except.bind]
      rw [weather_fresh s]
      simp only []
      rw [h1]
      rfl
    · simpa using h2
    · intro r hr
      rcases List.mem_cons.mp hr with h | h
      · rw [h]
        rfl
      · exact h3 r h

    · simp at h4
      omega

/-- C8: reusing the same static sample names `cloudy` and `temp` across
separate top-level invocations of `weather` is valid and raises no error:
five successive calls all succeed, each call starts a fresh trace that ends
up containing exactly the two names `cloudy` and `temp` with no duplicate,
and the five calls perform their own independent pairs of draws, consuming
ten successive positions of the random stream. -/
theorem static_names_fresh_traces_ok (s : SampleState) : ∃ rs s',
    weatherCalls 5 s = .ok (rs, s') ∧ rs.length = 5 ∧
    (∀ r ∈ rs, r.2.map Prod.fst = ["cloudy", "temp"] ∧ (r.2.map Prod.fst).Nodup) ∧
    s'.pos = s.pos + 10 := by
  obtain ⟨rs, s', h1, h2, h3, h4⟩ := weatherCalls_spec 5 s
  refine ⟨rs, s', h1, h2, fun r hr => ⟨h3 r hr, ?_⟩, by omega⟩
  rw [h3 r hr]
  decide

/-- The value of the `mu_laten` draw performed by `make_normal_normal`. -/
def muDraw (s : SampleState) : ℚ := Dist.sample (.normal 0 1) (s.stream s.pos)

/-- C9: `make_normal_normal` draws the sample named `mu_laten` exactly
once, at the time it is itself called, and returns a closure over that
drawn value; each later application of the returned function to a positive
scale draws exactly two further samples, named `z1` and `z2`, both from
Normal(mu_latent, scale), and returns their product `z1 * z2` without
re-drawing `mu_laten`. -/
theorem make_normal_normal_closure (s : SampleState) (scale : ℚ) (s2 : SampleState)
    (hsc : 0 < scale) :
    make_normal_normal s =
      .ok ((fun sc => normal_product (muDraw s) sc),
           ⟨s.stream, s.pos + 1, s.trace ++ [("mu_laten", muDraw s)]⟩) ∧
    normal_product (muDraw s) scale s2 =
      .ok (Dist.sample (.normal (muDraw s) scale) (s2.stream s2.pos) *
           Dist.sample (.normal (muDraw s) scale) (s2.stream (s2.pos + 1)),
           ⟨s2.stream, s2.pos + 1 + 1,
            s2.trace ++ [("z1", Dist.sample (.normal (muDraw s) scale) (s2.stream s2.pos)),
                         ("z2", Dist.sample (.normal (muDraw s) scale)
                            (s2.stream (s2.pos + 1)))]⟩) := by
  constructor
  · simp [make_normal_normal, pyroSampleChecked, pyroSample, mkNormal, muDraw, bind,
      Except.bind, pure, Except.pure]
  · simp [normal_product, pyroSampleChecked, pyroSample, mkNormal, bind, Except.bind,
      pure, Except.pure, hsc]

theorem make_normal_normal_closure_witness :
    ∃ fn s1, make_normal_normal zeroState = .ok (fn, s1) :=
  ⟨_, _, (make_normal_normal_closure zeroState 1 zeroState (by norm_num)).1⟩

/-- C10: for every run, `weather` succeeds and returns a pair whose first
component is exactly one of the two strings `cloudy` and `sunny`; in
particular the two dictionary lookups can never fail with a missing key,
so no `KeyError` is possible. -/
theorem weather_first_component_valid_key (s : SampleState) :
    ∃ c T s', weather s = .ok ((c, T), s') ∧ (c = "cloudy" ∨ c = "sunny") := by
  refine ⟨_, _, _, weather_eq s, ?_⟩
  by_cases hc : cloudyDraw s = 1 <;> simp [hc]

end PyroModel
